import Mathlib

/-!
Verification of the windoze sidebar panel (a Chrome extension).

The development shallowly embeds the rendering and state logic of
`sidepanel.js` (the copy bundled with `background.js`) and of the older
`sidepanel.js` variant shipped in the repository, and proves the
specification's testable properties about them.

Conventions of the embedding:
* Chrome tab/group/window records become Lean structures with the fields
  the scripts read.
* JavaScript truthiness on strings (`s || d` falls through on the empty
  string) is made explicit by `jsOrString`.
* `chrome.storage.local` is a record of optional stored maps; reading a
  missing key yields the empty map, as in `data.k || {}` in the source.
* DOM construction is modelled by the list of logical blocks each window
  content region receives, in document order.
* `String.prototype.localeCompare(undefined, numeric, base sensitivity)`
  is modelled by a numeric-aware, case-insensitive tokenized comparison.
-/

namespace Windoze

/-- A Chrome tab, with the fields `sidepanel.js` reads.  `groupId` is the
raw Chrome value: `-1` means "no group". Optional string fields model
properties that may be `undefined`. -/
structure Tab where
  id : Nat
  groupId : Int
  title : Option String
  url : Option String
  favIconUrl : Option String
  pinned : Bool
  active : Bool
deriving DecidableEq, Repr

/-- A Chrome tab group, with the fields `sidepanel.js` reads. -/
structure TabGroup where
  id : Int
  windowId : Nat
  title : Option String
  color : String
deriving DecidableEq, Repr

/-- A Chrome window (populated with its tabs), with the fields
`sidepanel.js` reads. -/
structure Window where
  id : Nat
  focused : Bool
  tabs : List Tab
deriving DecidableEq, Repr

/-- JavaScript `o || d` where `o` is a possibly-undefined string: both
`undefined` and the empty string are falsy and fall through to `d`. -/
def jsOrString (o : Option String) (d : String) : String :=
  match o with
  | some s => if s = "" then d else s
  | none => d

/-- `tab.title || tab.url || ''` from `createTabList`. -/
def tabDisplayTitle (t : Tab) : String :=
  jsOrString t.title (jsOrString t.url "")

/-- `const groupId = tab.groupId > -1 ? tab.groupId : 'none'` from
`renderList`: the effective group membership of a tab. -/
def effGroupId (t : Tab) : Option Int :=
  if t.groupId > -1 then some t.groupId else none

/-- `groupMap.get(gid)` where
`groupMap = new Map(tabGroups.map(g => [g.id, g]))`: a JavaScript `Map`
built from a list keeps the last entry for a duplicated key. -/
def groupMapGet (groups : List TabGroup) (gid : Int) : Option TabGroup :=
  (groups.filter (fun g => g.id == gid)).getLast?

/-- One top-level child appended to a window's content region:
a single-tab list for an ungrouped (or fallback) tab, the one combined
ungrouped-tabs list of the older renderer, or a group block (header data
plus the member tabs placed inside its collapsible region). -/
inductive Block where
  | single (t : Tab)
  | ungroupedList (ts : List Tab)
  | group (g : TabGroup) (ts : List Tab)
deriving DecidableEq, Repr

/-- The tab scan of `renderList` in the current `sidepanel.js`
(bundled with `background.js`): walk the window's tabs in order,
emitting an ungrouped single-tab block, or — on the first encounter of a
group id — either the full group block (when the group exists and
belongs to this window) or a single-tab fallback block; in both cases
the group id is added to `renderedGroups`, so later tabs with that id
are skipped. -/
def renderScanA (groups : List TabGroup) (win : Window) :
    List Tab → List Int → List Block
  | [], _ => []
  | t :: rest, rendered =>
    match effGroupId t with
    | none => Block.single t :: renderScanA groups win rest rendered
    | some gid =>
      if gid ∈ rendered then
        renderScanA groups win rest rendered
      else
        match groupMapGet groups gid with
        | some g =>
          if g.windowId = win.id then
            Block.group g (win.tabs.filter (fun u => u.groupId == gid)) ::
              renderScanA groups win rest (gid :: rendered)
          else
            Block.single t :: renderScanA groups win rest (gid :: rendered)
        | none =>
          Block.single t :: renderScanA groups win rest (gid :: rendered)

/-- The content-region blocks that the current `renderList` produces for
one window. -/
def renderBlocksA (groups : List TabGroup) (win : Window) : List Block :=
  renderScanA groups win win.tabs []

/-- The key-insertion pass of the older renderer's
`tabsByGroup` map: each group id is a key once, at the position of its
first occurrence (`Map.set` on an existing key keeps its position). -/
def dedupGroupsById : List TabGroup → List Int → List TabGroup
  | [], _ => []
  | g :: rest, seen =>
    if g.id ∈ seen then dedupGroupsById rest seen
    else g :: dedupGroupsById rest (g.id :: seen)

/-- One iteration of the older renderer's bucket loop: the bucket of a
registered group key holds the window's tabs whose effective group id
is that key; an empty bucket is skipped (`continue`), as is a key whose
`groupMap` entry is missing or belongs to another window; otherwise the
block shows the `groupMap` entry's data over the bucket. -/
def groupBucketBlock (groups : List TabGroup) (win : Window) (g : TabGroup) : Option Block :=
  let ts := win.tabs.filter (fun t => effGroupId t == some g.id)
  if ts.isEmpty then none
  else
    match groupMapGet groups g.id with
    | some gi => if gi.windowId = win.id then some (Block.group gi ts) else none
    | none => none

/-- The content-region blocks that the older `renderList`
(`src/unnamed/part_001`) produces for one window: every group bucket
first (in tab-group list order, skipping empty buckets and groups whose
`groupMap` entry is missing or belongs to another window), then one
combined list of the ungrouped tabs, if any. -/
def renderBlocksB (groups : List TabGroup) (win : Window) : List Block :=
  let winGroups := dedupGroupsById (groups.filter (fun g => g.windowId == win.id)) []
  let groupBlocks := winGroups.filterMap (groupBucketBlock groups win)
  let ungrouped := win.tabs.filter (fun t => effGroupId t == (none : Option Int))
  groupBlocks ++ (if ungrouped.isEmpty then [] else [Block.ungroupedList ungrouped])

/-- What it takes for the current renderer to show a group block
`(g, ts)` in a window: `g` is `groupMap`'s entry for its id, belongs to
the window, `ts` is the window's tabs filtered to the group (as the
renderer collects them), and some tab of the window is effectively in
the group. -/
def groupBlockChar (groups : List TabGroup) (win : Window) (g : TabGroup) (ts : List Tab) :
    Prop :=
  groupMapGet groups g.id = some g ∧ g.windowId = win.id ∧
  ts = win.tabs.filter (fun u => u.groupId == g.id) ∧
  ∃ t, t ∈ win.tabs ∧ effGroupId t = some g.id

/-- All group references of a window's tabs resolve, through
`groupMap`, to a group of that same window (the well-formed case in
which the fallback branch of the scan is never taken). -/
def validRefs (groups : List TabGroup) (win : Window) : Bool :=
  win.tabs.all (fun t =>
    match effGroupId t with
    | none => true
    | some gid =>
      match groupMapGet groups gid with
      | some g => g.windowId == win.id
      | none => false)

/-! ### State store -/

/-- The persistence-relevant state of the panel: the two in-memory maps
(`windowTitles`, `collapsedState`) and the two `chrome.storage.local`
keys (`customWindowTitles`, `collapsedState`), each `none` when the key
has never been written. -/
structure StoreState where
  windowTitles : Nat → Option String
  collapsedState : String → Option Bool
  storedTitles : Option (Nat → Option String)
  storedCollapsed : Option (String → Option Bool)

/-- `loadWindowTitles`: `data.customWindowTitles || {}`. -/
def loadWindowTitles (stored : Option (Nat → Option String)) : Nat → Option String :=
  stored.getD (fun _ => none)

/-- `loadCollapsedState`: `data.collapsedState || {}`. -/
def loadCollapsedState (stored : Option (String → Option Bool)) : String → Option Bool :=
  stored.getD (fun _ => none)

/-- `windowTitles[windowId] = title` as a map update. -/
def updateTitleMap (m : Nat → Option String) (wid : Nat) (t : String) :
    Nat → Option String :=
  fun i => if i = wid then some t else m i

/-- `collapsedState[key] = isCollapsed` as a map update. -/
def updateCollapsedMap (m : String → Option Bool) (key : String) (b : Bool) :
    String → Option Bool :=
  fun k => if k = key then some b else m k

/-- `saveWindowTitle`: update the in-memory title map and overwrite the
stored map with it (the scheduled re-render is not part of the stored
state). -/
def saveWindowTitle (st : StoreState) (wid : Nat) (title : String) : StoreState :=
  let m := updateTitleMap st.windowTitles wid title
  { st with windowTitles := m, storedTitles := some m }

/-- `saveCollapsedState`: update the in-memory collapse map and
overwrite the stored map with it. -/
def saveCollapsedState (st : StoreState) (key : String) (isCollapsed : Bool) : StoreState :=
  let m := updateCollapsedMap st.collapsedState key isCollapsed
  { st with collapsedState := m, storedCollapsed := some m }

/-- The `blur` handler of the editable title span:
`saveWindowTitle(win.id, e.target.textContent.trim())`. -/
def blurSaveTitle (st : StoreState) (wid : Nat) (text : String) : StoreState :=
  saveWindowTitle st wid text.trim

/-! ### Window display titles and the window sort -/

/-- ``windowTitles[win.id] || `Window ${win.id}` `` — the displayed
(and compared) title of a window. -/
def displayWindowTitle (titles : Nat → Option String) (wid : Nat) : String :=
  jsOrString (titles wid) ("Window " ++ toString wid)

/-- Numeric value of a decimal digit character. -/
def digitVal (c : Char) : Nat := c.toNat - 48

/-- Value of a run of decimal digit characters. -/
def digitsVal (ds : List Char) : Nat :=
  ds.foldl (fun acc d => acc * 10 + digitVal d) 0

/-- Collation tokens for
`localeCompare(…, undefined, numeric true, sensitivity base)`:
a maximal digit run becomes a numeric token (compared by value, sorting
before any non-digit), every other character becomes a case-folded
character token. -/
def tokenize : List Char → List (Lex (Nat × Nat))
  | [] => []
  | c :: rest =>
    if c.isDigit then
      toLex (0, digitsVal (c :: rest.takeWhile Char.isDigit)) ::
        tokenize (rest.dropWhile Char.isDigit)
    else
      toLex (1, c.toLower.toNat) :: tokenize rest
termination_by cs => cs.length
decreasing_by
  · exact Nat.lt_succ_of_le (List.Sublist.length_le (List.dropWhile_sublist _))
  · exact Nat.lt_succ_of_le (Nat.le_refl _)

/-- The collation key of a title. -/
def titleKey (s : String) : List (Lex (Nat × Nat)) := tokenize s.data

/-- Model of
`a.localeCompare(b, undefined, numeric true, sensitivity base)`:
negative, zero or positive according to the collation keys. -/
def localeCmp (s t : String) : Int :=
  if titleKey s < titleKey t then -1
  else if titleKey t < titleKey s then 1
  else 0

/-- The effective title a window is sorted by. -/
def effTitle (titles : Nat → Option String) (w : Window) : String :=
  displayWindowTitle titles w.id

/-- The comparator passed to `windows.sort` in `renderList`. -/
def winCmp (titles : Nat → Option String) (a b : Window) : Int :=
  if a.focused && !b.focused then -1
  else if !a.focused && b.focused then 1
  else localeCmp (effTitle titles a) (effTitle titles b)

/-- `windows.sort(cmp)`, modelled by a comparator-correct sort (the
claims concern the order of the result relative to the comparator). -/
def sortWindows (titles : Nat → Option String) (ws : List Window) : List Window :=
  List.insertionSort (fun a b => winCmp titles a b ≤ 0) ws

/-! ### Activation updater -/

/-- A rendered window header row (`.window-item`): its
`data-window-id` and whether it carries the `active-window` class. -/
structure WinRow where
  winId : Nat
  activeWin : Bool
deriving DecidableEq, Repr

/-- A rendered tab row (`.tab-item`): its `data-tab-id` and whether it
carries the `active-tab` class. -/
structure TabRow where
  tabId : Nat
  activeTab : Bool
deriving DecidableEq, Repr

/-- The rendered tree as the activation updater sees it: window rows,
group rows (which carry no activation marker) and tab rows, each in
document order. -/
structure Dom where
  winRows : List WinRow
  groupRows : List Int
  tabRows : List TabRow
deriving DecidableEq, Repr

/-- Remove `active-window` from every marked window row. -/
def clearWinRows (l : List WinRow) : List WinRow :=
  l.map (fun r => { r with activeWin := false })

/-- Remove `active-tab` from every marked tab row. -/
def clearTabRows (l : List TabRow) : List TabRow :=
  l.map (fun r => { r with activeTab := false })

/-- `document.querySelector` plus `classList.add`: mark the first
window row with the given id, if any. -/
def markFirstWin (wid : Nat) : List WinRow → List WinRow
  | [] => []
  | r :: rs =>
    if r.winId = wid then { r with activeWin := true } :: rs
    else r :: markFirstWin wid rs

/-- `document.querySelector` plus `classList.add`: mark the first tab
row with the given id, if any. -/
def markFirstTab (tid : Nat) : List TabRow → List TabRow
  | [] => []
  | r :: rs =>
    if r.tabId = tid then { r with activeTab := true } :: rs
    else r :: markFirstTab tid rs

/-- `updateActiveStates`, with `host` the result of
`chrome.windows.getLastFocused({populate, normal})`: clear all markers,
then mark the focused window's row and its active tab's row. -/
def updateActiveStates (host : Option Window) (d : Dom) : Dom :=
  let d0 : Dom :=
    { winRows := clearWinRows d.winRows, groupRows := d.groupRows,
      tabRows := clearTabRows d.tabRows }
  match host with
  | none => d0
  | some w =>
    let d1 : Dom := { d0 with winRows := markFirstWin w.id d0.winRows }
    match w.tabs.find? (fun t => t.active) with
    | none => d1
    | some t => { d1 with tabRows := markFirstTab t.id d1.tabRows }

/-- The panel state the activation updater could conceivably touch:
the rendered tree and the store. -/
structure PanelState where
  dom : Dom
  store : StoreState

/-- Whole-state view of `updateActiveStates`: its body performs only
DOM class toggles, so the store passes through; the `Bool` records
whether a re-render was triggered (the body contains no `renderList`
call). -/
def updateActiveStatesFull (host : Option Window) (s : PanelState) : PanelState × Bool :=
  ({ s with dom := updateActiveStates host s.dom }, false)

/-! ### Collapsible regions -/

/-- One collapsible arrow/content pair: the derived section key, the
content's `collapsed` class and the arrow's `expanded` class. -/
structure Region where
  key : String
  collapsed : Bool
  arrowExpanded : Bool
deriving DecidableEq, Repr

/-- `` `window-content-${win.id}` `` -/
def windowContentKey (wid : Nat) : String := "window-content-" ++ toString wid

/-- `` `group-content-${groupId}` `` -/
def groupContentKey (gid : Int) : String := "group-content-" ++ toString gid

/-- The arrow click handler of `createToggleArrow` together with the
`saveCollapsedState` call it makes; the `Bool` records whether a
re-render was triggered (the handler contains no `renderList` call). -/
def toggleRegion (st : StoreState) (r : Region) : Region × StoreState × Bool :=
  let isNowCollapsed := !r.collapsed
  ({ r with arrowExpanded := !isNowCollapsed, collapsed := isNowCollapsed },
   saveCollapsedState st r.key isNowCollapsed, false)

/-- How a render initializes a collapsible region from the in-memory
collapse map: content gets the `collapsed` class iff
`collapsedState[key]` is truthy, the arrow gets `expanded` iff it is
not. -/
def initRegion (collapsed : String → Option Bool) (key : String) : Region :=
  let c := (collapsed key).getD false
  { key := key, collapsed := c, arrowExpanded := !c }

/-- A full render first reloads the collapse map from storage, then
initializes each region from it. -/
def initRegionAfterReload (st : StoreState) (key : String) : Region :=
  initRegion (loadCollapsedState st.storedCollapsed) key

/-! ### Tab rows -/

/-- A child element of a tab row (`tabLink`). -/
inductive RowElem where
  | icon (src : String)
  | titleSpan (text : String)
  | pinMarker
  | srOnly (text : String)
deriving DecidableEq, Repr

/-- The favicon `src` attribute: the tab's icon url when it is an
http(s) url, else the bundled default icon. -/
def faviconSrc (t : Tab) : String :=
  match t.favIconUrl with
  | some u =>
    if u.startsWith "http://" || u.startsWith "https://" then u
    else "icons/icon16.png"
  | none => "icons/icon16.png"

/-- `parent.insertBefore(newChild, ref)`: insert before the first child
equal to `ref` (the reference child is present at every call site). -/
def insertBeforeElem : List RowElem → RowElem → RowElem → List RowElem
  | [], newE, _ => [newE]
  | c :: cs, newE, ref =>
    if c = ref then newE :: c :: cs else c :: insertBeforeElem cs newE ref

/-- The children of one tab row in `createTabList`, in order: favicon
then title always; for a pinned tab the visual marker is inserted
before the title element and the screen-reader-only suffix is appended
after it. -/
def tabRowElems (t : Tab) : List RowElem :=
  let base := [RowElem.icon (faviconSrc t), RowElem.titleSpan (tabDisplayTitle t)]
  if t.pinned then
    insertBeforeElem base RowElem.pinMarker (RowElem.titleSpan (tabDisplayTitle t)) ++
      [RowElem.srOnly " (pinned)"]
  else base

/-- The visible title text of a row element, if it is the title span. -/
def rowTitleText : RowElem → Option String
  | RowElem.titleSpan s => some s
  | _ => none

/-! ### Observers on rendered blocks -/

/-- The tab of a standalone single-tab block. -/
def blockSingleTab : Block → Option Tab
  | Block.single t => some t
  | _ => none

/-- Whether a block is the group block of the given group id. -/
def isGroupBlockFor (gid : Int) : Block → Bool
  | Block.group g _ => g.id == gid
  | _ => false

/-- The ungrouped tabs a block sequence shows, top to bottom. -/
def ungroupedTabsOf (bs : List Block) : List Tab :=
  (bs.map (fun b =>
    match b with
    | Block.single t => [t]
    | Block.ungroupedList ts => ts
    | Block.group _ _ => [])).flatten

/-- The position in the window's tab list that anchors a block: an
ungrouped row sits at its tab's index, a group block at the index of
the group's first member tab. -/
def blockAnchor (tabs : List Tab) : Block → Nat
  | Block.single t => tabs.findIdx (fun u => u.id == t.id)
  | Block.ungroupedList _ => 0
  | Block.group g _ => tabs.findIdx (fun u => effGroupId u == some g.id)

/-! ### Concrete snapshots used as witnesses and counterexamples -/

/-- A plain unpinned, ungrouped-or-grouped tab with index `i` in group
`gid` (`-1` for none). -/
def exTab (i : Nat) (gid : Int) : Tab :=
  { id := i, groupId := gid, title := some ("t" ++ toString i), url := none,
    favIconUrl := none, pinned := false, active := false }

/-- The spec's scenario group: title "Work", color blue. -/
def exGroup : TabGroup := { id := 7, windowId := 1, title := some "Work", color := "blue" }

/-- The spec's scenario window: three tabs, only tab 2 in the group. -/
def exWin : Window := { id := 1, focused := true, tabs := [exTab 1 (-1), exTab 2 7, exTab 3 (-1)] }

/-- Two tabs of the same window sharing the invalid group id `5`
(no group `5` exists). -/
def c1Win : Window := { id := 1, focused := false, tabs := [exTab 1 5, exTab 2 5] }

/-- A title map storing the empty string for window `1` and nothing
else. -/
def c3Titles : Nat → Option String := fun i => if i = 1 then some "" else none

/-- An empty store (nothing in memory, nothing persisted). -/
def exStore : StoreState :=
  { windowTitles := fun _ => none, collapsedState := fun _ => none,
    storedTitles := none, storedCollapsed := none }

/-- The region of group `7`'s content, as an empty store renders it. -/
def exRegion : Region := initRegion exStore.collapsedState (groupContentKey 7)

/-- A pinned tab. -/
def exPinnedTab : Tab :=
  { id := 4, groupId := -1, title := some "Docs", url := none,
    favIconUrl := none, pinned := true, active := false }

/-- An unpinned tab. -/
def exPlainTab : Tab :=
  { id := 5, groupId := -1, title := some "News", url := none,
    favIconUrl := none, pinned := false, active := false }

/-! ## Theorems -/

/-- C5: saving a string as a window's custom title through the blur
handler and then reloading the title store from persistent storage
yields exactly the trimmed form of the string for that window id,
including when the trimmed form is empty. -/
theorem C5_title_save_reload_roundtrip (st : StoreState) (wid : Nat) (s : String) :
    loadWindowTitles (blurSaveTitle st wid s).storedTitles wid = some s.trim := by
  simp [blurSaveTitle, saveWindowTitle, loadWindowTitles, updateTitleMap]

/-- C3, counterexample: the title map stores the empty string for
window 1, yet the displayed title is the default "Window 1", not the
empty string — `windowTitles[id] || default` treats the stored empty
string exactly like an absent entry. -/
theorem C3_empty_title_counterexample :
    c3Titles 1 = some "" ∧
    displayWindowTitle c3Titles 1 = "Window 1" ∧
    ¬ displayWindowTitle c3Titles 1 = "" := by
  refine ⟨rfl, rfl, by decide⟩

/-- C3, amended: a stored empty string displays the default
"Window {id}" exactly like an absent entry; only a nonempty stored
title displays verbatim. -/
theorem C3_empty_title_amended (titles : Nat → Option String) (wid : Nat) :
    ((titles wid = some "" ∨ titles wid = none) →
      displayWindowTitle titles wid = "Window " ++ toString wid) ∧
    (∀ s, titles wid = some s → ¬ s = "" → displayWindowTitle titles wid = s) := by
  constructor
  · rintro (h | h) <;> simp [displayWindowTitle, jsOrString, h]
  · intro s hs hne
    simp [displayWindowTitle, jsOrString, hs, hne]

/-- Witness for C3's amended statement at the concrete map. -/
theorem C3_empty_title_amended_witness :
    displayWindowTitle c3Titles 1 = "Window " ++ toString 1 :=
  (C3_empty_title_amended c3Titles 1).1 (Or.inl rfl)

/-- C1, failing input: two tabs of the same window share the invalid
group id 5; the render emits a fallback ungrouped row only for the
first of them and drops the second entirely. -/
theorem C1_second_invalid_tab_dropped :
    renderBlocksA [] c1Win = [Block.single (exTab 1 5)] ∧
    ¬ exTab 2 5 ∈ ungroupedTabsOf (renderBlocksA [] c1Win) ∧
    ¬ isGroupBlockFor 5 (Block.single (exTab 1 5)) = true := by
  decide

/-- C8: a pinned tab's row carries the visual marker element right
before the title span and a screen-reader-only " (pinned)" suffix after
it; an unpinned tab's row has neither; and in both cases the visible
title span holds exactly the tab's display title, without the
suffix. -/
theorem C8_pinned_row_marker (t : Tab) :
    (t.pinned = true →
      tabRowElems t =
        [RowElem.icon (faviconSrc t), RowElem.pinMarker,
         RowElem.titleSpan (tabDisplayTitle t), RowElem.srOnly " (pinned)"]) ∧
    (t.pinned = false →
      tabRowElems t = [RowElem.icon (faviconSrc t), RowElem.titleSpan (tabDisplayTitle t)]) ∧
    (tabRowElems t).filterMap rowTitleText = [tabDisplayTitle t] := by
  refine ⟨fun hp => ?_, fun hp => ?_, ?_⟩
  · simp [tabRowElems, hp, insertBeforeElem, rowTitleText]
  · simp [tabRowElems, hp]
  · cases hp : t.pinned <;>
      simp [tabRowElems, hp, insertBeforeElem, rowTitleText, List.filterMap]

/-- Witness for C8 at a concrete pinned and a concrete unpinned tab. -/
theorem C8_pinned_row_marker_witness :
    tabRowElems exPinnedTab =
      [RowElem.icon "icons/icon16.png", RowElem.pinMarker,
       RowElem.titleSpan "Docs", RowElem.srOnly " (pinned)"] ∧
    tabRowElems exPlainTab = [RowElem.icon "icons/icon16.png", RowElem.titleSpan "News"] :=
  ⟨((C8_pinned_row_marker exPinnedTab).1 rfl).trans (by decide),
   ((C8_pinned_row_marker exPlainTab).2.1 rfl).trans (by decide)⟩

/-- C7: toggling a collapse arrow flips the content region's
visibility, syncs the arrow, persists the new flag under the region's
derived key (leaving every other key alone, and writing the full map to
storage), triggers no re-render; a later full render reloads the flag
and starts the region in the toggled state; and a key absent from the
collapse map renders expanded. -/
theorem C7_toggle_collapse (st : StoreState) (r : Region) :
    (toggleRegion st r).1.collapsed = !r.collapsed ∧
    (toggleRegion st r).1.arrowExpanded = r.collapsed ∧
    (toggleRegion st r).1.key = r.key ∧
    (toggleRegion st r).2.2 = false ∧
    (toggleRegion st r).2.1.collapsedState r.key = some (!r.collapsed) ∧
    (∀ k, ¬ k = r.key → (toggleRegion st r).2.1.collapsedState k = st.collapsedState k) ∧
    (toggleRegion st r).2.1.storedCollapsed = some (toggleRegion st r).2.1.collapsedState ∧
    (initRegionAfterReload (toggleRegion st r).2.1 r.key).collapsed = !r.collapsed ∧
    (∀ key, st.collapsedState key = none → (initRegion st.collapsedState key).collapsed = false) := by
  refine ⟨rfl, by simp [toggleRegion], rfl, rfl, ?_, ?_, rfl, ?_, ?_⟩
  · simp [toggleRegion, saveCollapsedState, updateCollapsedMap]
  · intro k hk
    simp [toggleRegion, saveCollapsedState, updateCollapsedMap, hk]
  · simp [toggleRegion, saveCollapsedState, updateCollapsedMap,
      initRegionAfterReload, initRegion, loadCollapsedState]
  · intro key h
    simp [initRegion, h]

/-- Witness for C7 at the empty store and group 7's region: the toggle
collapses the region, persists `group-content-7 := true`, leaves other
keys untouched, and the next render starts collapsed, while an absent
key renders expanded. -/
theorem C7_toggle_collapse_witness :
    (toggleRegion exStore exRegion).1.collapsed = true ∧
    (toggleRegion exStore exRegion).2.2 = false ∧
    (toggleRegion exStore exRegion).2.1.collapsedState (groupContentKey 7) = some true ∧
    (toggleRegion exStore exRegion).2.1.collapsedState (windowContentKey 3) = none ∧
    (initRegionAfterReload (toggleRegion exStore exRegion).2.1 (groupContentKey 7)).collapsed = true ∧
    (initRegion exStore.collapsedState (windowContentKey 3)).collapsed = false := by
  obtain ⟨h1, _, _, h4, h5, h6, _, h8, h9⟩ := C7_toggle_collapse exStore exRegion
  exact ⟨h1, h4, h5, (h6 (windowContentKey 3) (by decide)).trans rfl, h8,
    h9 (windowContentKey 3) rfl⟩

theorem clearWinRows_idem (l : List WinRow) :
    clearWinRows (clearWinRows l) = clearWinRows l := by
  induction l with
  | nil => rfl
  | cons r rs ih => simp [clearWinRows, ih]

theorem clearTabRows_idem (l : List TabRow) :
    clearTabRows (clearTabRows l) = clearTabRows l := by
  induction l with
  | nil => rfl
  | cons r rs ih => simp [clearTabRows, ih]

theorem clearWinRows_cons (r : WinRow) (rs : List WinRow) :
    clearWinRows (r :: rs) = { r with activeWin := false } :: clearWinRows rs := rfl

theorem clearTabRows_cons (r : TabRow) (rs : List TabRow) :
    clearTabRows (r :: rs) = { r with activeTab := false } :: clearTabRows rs := rfl

theorem clearWinRows_markFirstWin (wid : Nat) (l : List WinRow) :
    clearWinRows (markFirstWin wid l) = clearWinRows l := by
  induction l with
  | nil => rfl
  | cons r rs ih =>
    by_cases h : r.winId = wid <;>
      simp [markFirstWin, clearWinRows_cons, h, ih]

theorem clearTabRows_markFirstTab (tid : Nat) (l : List TabRow) :
    clearTabRows (markFirstTab tid l) = clearTabRows l := by
  induction l with
  | nil => rfl
  | cons r rs ih =>
    by_cases h : r.tabId = tid <;>
      simp [markFirstTab, clearTabRows_cons, h, ih]

theorem markFirstWin_map_winId (wid : Nat) (l : List WinRow) :
    (markFirstWin wid l).map WinRow.winId = l.map WinRow.winId := by
  induction l with
  | nil => rfl
  | cons r rs ih =>
    by_cases h : r.winId = wid <;> simp [markFirstWin, h, ih]

theorem markFirstTab_map_tabId (tid : Nat) (l : List TabRow) :
    (markFirstTab tid l).map TabRow.tabId = l.map TabRow.tabId := by
  induction l with
  | nil => rfl
  | cons r rs ih =>
    by_cases h : r.tabId = tid <;> simp [markFirstTab, h, ih]

theorem clearWinRows_map_winId (l : List WinRow) :
    (clearWinRows l).map WinRow.winId = l.map WinRow.winId := by
  induction l with
  | nil => rfl
  | cons r rs ih => simp [clearWinRows, ih]

theorem clearTabRows_map_tabId (l : List TabRow) :
    (clearTabRows l).map TabRow.tabId = l.map TabRow.tabId := by
  induction l with
  | nil => rfl
  | cons r rs ih => simp [clearTabRows, ih]

theorem countP_clearWinRows (l : List WinRow) :
    (clearWinRows l).countP (fun r => r.activeWin) = 0 := by
  induction l with
  | nil => rfl
  | cons r rs ih => simp [clearWinRows, List.countP_cons, ih]

theorem countP_clearTabRows (l : List TabRow) :
    (clearTabRows l).countP (fun r => r.activeTab) = 0 := by
  induction l with
  | nil => rfl
  | cons r rs ih => simp [clearTabRows, List.countP_cons, ih]

theorem countP_markFirstWin_clear (wid : Nat) (l : List WinRow) :
    (markFirstWin wid (clearWinRows l)).countP (fun r => r.activeWin) ≤ 1 := by
  induction l with
  | nil => simp [clearWinRows, markFirstWin]
  | cons r rs ih =>
    by_cases h : r.winId = wid
    · simp [clearWinRows_cons, markFirstWin, h, List.countP_cons, countP_clearWinRows]
    · simpa [clearWinRows_cons, markFirstWin, h, List.countP_cons] using ih

theorem countP_markFirstTab_clear (tid : Nat) (l : List TabRow) :
    (markFirstTab tid (clearTabRows l)).countP (fun r => r.activeTab) ≤ 1 := by
  induction l with
  | nil => simp [clearTabRows, markFirstTab]
  | cons r rs ih =>
    by_cases h : r.tabId = tid
    · simp [clearTabRows_cons, markFirstTab, h, List.countP_cons, countP_clearTabRows]
    · simpa [clearTabRows_cons, markFirstTab, h, List.countP_cons] using ih

/-- C6: running the activation updater twice against the same host
focus state leaves exactly the markings of one run, and a single run
leaves at most one marked window row and at most one marked tab
row. -/
theorem C6_updater_idempotent (host : Option Window) (d : Dom) :
    updateActiveStates host (updateActiveStates host d) = updateActiveStates host d ∧
    (updateActiveStates host d).winRows.countP (fun r => r.activeWin) ≤ 1 ∧
    (updateActiveStates host d).tabRows.countP (fun r => r.activeTab) ≤ 1 := by
  match host with
  | none =>
    refine ⟨?_, ?_, ?_⟩
    · simp [updateActiveStates, clearWinRows_idem, clearTabRows_idem]
    · simp [updateActiveStates, countP_clearWinRows]
    · simp [updateActiveStates, countP_clearTabRows]
  | some w =>
    match hf : w.tabs.find? (fun t => t.active) with
    | none =>
      refine ⟨?_, ?_, ?_⟩
      · simp [updateActiveStates, hf, clearWinRows_markFirstWin, clearWinRows_idem,
          clearTabRows_idem]
      · simpa [updateActiveStates, hf] using countP_markFirstWin_clear w.id d.winRows
      · simp [updateActiveStates, hf, countP_clearTabRows]
    | some t =>
      refine ⟨?_, ?_, ?_⟩
      · simp [updateActiveStates, hf, clearWinRows_markFirstWin, clearWinRows_idem,
          clearTabRows_markFirstTab, clearTabRows_idem]
      · simpa [updateActiveStates, hf] using countP_markFirstWin_clear w.id d.winRows
      · simpa [updateActiveStates, hf] using countP_markFirstTab_clear t.id d.tabRows

/-- C9: the activation updater only toggles activation markers — the
identity and order of the window, group and tab rows are unchanged, the
store (in-memory and persisted maps) passes through untouched, and no
re-render is triggered. -/
theorem C9_updater_frame (host : Option Window) (s : PanelState) :
    (updateActiveStatesFull host s).1.dom.winRows.map WinRow.winId
        = s.dom.winRows.map WinRow.winId ∧
    (updateActiveStatesFull host s).1.dom.groupRows = s.dom.groupRows ∧
    (updateActiveStatesFull host s).1.dom.tabRows.map TabRow.tabId
        = s.dom.tabRows.map TabRow.tabId ∧
    (updateActiveStatesFull host s).1.store = s.store ∧
    (updateActiveStatesFull host s).2 = false := by
  match host with
  | none =>
    exact ⟨by simp [updateActiveStatesFull, updateActiveStates, clearWinRows_map_winId],
      rfl,
      by simp [updateActiveStatesFull, updateActiveStates, clearTabRows_map_tabId],
      rfl, rfl⟩
  | some w =>
    match hf : w.tabs.find? (fun t => t.active) with
    | none =>
      exact ⟨by simp [updateActiveStatesFull, updateActiveStates, hf,
          markFirstWin_map_winId, clearWinRows_map_winId],
        by simp [updateActiveStatesFull, updateActiveStates, hf],
        by simp [updateActiveStatesFull, updateActiveStates, hf, clearTabRows_map_tabId],
        rfl, rfl⟩
    | some t =>
      exact ⟨by simp [updateActiveStatesFull, updateActiveStates, hf,
          markFirstWin_map_winId, clearWinRows_map_winId],
        by simp [updateActiveStatesFull, updateActiveStates, hf],
        by simp [updateActiveStatesFull, updateActiveStates, hf,
          markFirstTab_map_tabId, clearTabRows_map_tabId],
        rfl, rfl⟩

/-- The sort key equivalent to `winCmp`: focused windows rank `0`,
others `1`; ties break on the title collation key. -/
def winKey (titles : Nat → Option String) (w : Window) :
    Lex (Nat × List (Lex (Nat × Nat))) :=
  toLex ((if w.focused then 0 else 1), titleKey (effTitle titles w))

theorem localeCmp_le_iff (s t : String) :
    localeCmp s t ≤ 0 ↔ titleKey s ≤ titleKey t := by
  unfold localeCmp
  rcases lt_trichotomy (titleKey s) (titleKey t) with h | h | h
  · simp [h, le_of_lt h]
  · simp [h, lt_irrefl]
  · simp [lt_asymm h, h, not_le_of_gt h]

theorem winCmp_le_iff (titles : Nat → Option String) (a b : Window) :
    winCmp titles a b ≤ 0 ↔ winKey titles a ≤ winKey titles b := by
  unfold winCmp winKey
  cases ha : a.focused <;> cases hb : b.focused <;>
    simp [Prod.Lex.le_iff, localeCmp_le_iff]

/-- C4: the window sort is a permutation of the snapshot in which every
focused window precedes every non-focused one regardless of titles, and
any two non-focused windows appear in the (numeric-aware,
case-insensitive) locale order of their effective display titles. -/
theorem C4_window_sort_order (titles : Nat → Option String) (ws : List Window) :
    List.Perm (sortWindows titles ws) ws ∧
    (sortWindows titles ws).Pairwise (fun a b =>
      (b.focused = true → a.focused = true) ∧
      (a.focused = false → b.focused = false →
        localeCmp (effTitle titles a) (effTitle titles b) ≤ 0)) := by
  constructor
  · exact List.perm_insertionSort _ ws
  · have hs : (sortWindows titles ws).Pairwise (fun a b => winCmp titles a b ≤ 0) := by
      haveI ht : IsTotal Window (fun a b => winCmp titles a b ≤ 0) := by
        constructor
        intro a b
        rw [winCmp_le_iff, winCmp_le_iff]
        exact le_total _ _
      haveI htr : IsTrans Window (fun a b => winCmp titles a b ≤ 0) := by
        constructor
        intro a b c hab hbc
        rw [winCmp_le_iff] at hab hbc ⊢
        exact le_trans hab hbc
      exact List.sorted_insertionSort _ ws
    refine hs.imp ?_
    intro a b hab
    constructor
    · intro hb
      by_contra ha
      rw [Bool.not_eq_true] at ha
      rw [winCmp, ha, hb] at hab
      simp at hab
    · intro ha hb
      rw [winCmp, ha, hb] at hab
      simpa using hab

theorem groupMapGet_mem_filter (groups : List TabGroup) (gid : Int) (g : TabGroup)
    (h : groupMapGet groups gid = some g) :
    g ∈ groups.filter (fun x => x.id == gid) := by
  have hmem : g ∈ (groups.filter (fun x => x.id == gid)).getLast? := Option.mem_def.mpr h
  obtain ⟨hne, heq⟩ := List.mem_getLast?_eq_getLast hmem
  rw [heq]
  exact List.getLast_mem hne

theorem groupMapGet_id (groups : List TabGroup) (gid : Int) (g : TabGroup)
    (h : groupMapGet groups gid = some g) : g.id = gid := by
  have hm := groupMapGet_mem_filter groups gid g h
  rw [List.mem_filter] at hm
  simpa using hm.2

theorem groupMapGet_mem (groups : List TabGroup) (gid : Int) (g : TabGroup)
    (h : groupMapGet groups gid = some g) : g ∈ groups := by
  have hm := groupMapGet_mem_filter groups gid g h
  rw [List.mem_filter] at hm
  exact hm.1

theorem validRefs_elim (groups : List TabGroup) (win : Window)
    (h : validRefs groups win = true) :
    ∀ t ∈ win.tabs, ∀ gid, effGroupId t = some gid →
      ∃ g, groupMapGet groups gid = some g ∧ g.windowId = win.id := by
  intro t ht gid hgid
  unfold validRefs at h
  rw [List.all_eq_true] at h
  have ht2 := h t ht
  rw [hgid] at ht2
  simp only at ht2
  cases hg : groupMapGet groups gid with
  | none => rw [hg] at ht2; simp at ht2
  | some g =>
    rw [hg] at ht2
    exact ⟨g, rfl, by simpa using ht2⟩

theorem effGroupId_eq_some_iff (t : Tab) (gid : Int) :
    effGroupId t = some gid ↔ t.groupId = gid ∧ -1 < gid := by
  unfold effGroupId
  by_cases h : t.groupId > -1
  · simp only [h, if_pos, Option.some.injEq]
    constructor
    · intro hh
      exact ⟨hh, hh ▸ h⟩
    · intro hh
      exact hh.1
  · simp only [h, if_neg, not_false_iff]
    constructor
    · intro hh
      cases hh
    · intro hh
      exact absurd (hh.1 ▸ hh.2) h

theorem effGroupId_beq_eq (u : Tab) (gid : Int) (h : -1 < gid) :
    (effGroupId u == some gid) = (u.groupId == gid) := by
  by_cases he : u.groupId = gid
  · subst he
    simp [effGroupId, h]
  · by_cases hu : u.groupId > -1 <;> simp [effGroupId, hu, he]

theorem filter_effGroupId_eq (tabs : List Tab) (gid : Int) (h : -1 < gid) :
    tabs.filter (fun u => effGroupId u == some gid)
      = tabs.filter (fun u => u.groupId == gid) :=
  List.filter_congr (fun u _ => effGroupId_beq_eq u gid h)

theorem findIdx_append_cons {α : Type} (p : α → Bool) (pre : List α) (t : α)
    (suf : List α) (hpre : ∀ u ∈ pre, p u = false) (ht : p t = true) :
    (pre ++ t :: suf).findIdx p = pre.length := by
  induction pre with
  | nil => simp [List.findIdx_cons, ht]
  | cons a pre ih =>
    have ha := hpre a (List.mem_cons_self a pre)
    simp [List.findIdx_cons, ha,
      ih (fun u hu => hpre u (List.mem_cons_of_mem a hu))]

theorem renderScanA_nil (groups : List TabGroup) (win : Window) (rendered : List Int) :
    renderScanA groups win [] rendered = [] := rfl

theorem renderScanA_cons_none (groups : List TabGroup) (win : Window) (t : Tab)
    (rest : List Tab) (rendered : List Int) (h : effGroupId t = none) :
    renderScanA groups win (t :: rest) rendered =
      Block.single t :: renderScanA groups win rest rendered := by
  rw [renderScanA, h]

theorem renderScanA_cons_mem (groups : List TabGroup) (win : Window) (t : Tab)
    (rest : List Tab) (rendered : List Int) (gid : Int)
    (h : effGroupId t = some gid) (hm : gid ∈ rendered) :
    renderScanA groups win (t :: rest) rendered =
      renderScanA groups win rest rendered := by
  rw [renderScanA, h]
  simp [hm]

theorem renderScanA_cons_group (groups : List TabGroup) (win : Window) (t : Tab)
    (rest : List Tab) (rendered : List Int) (gid : Int) (g : TabGroup)
    (h : effGroupId t = some gid) (hm : ¬ gid ∈ rendered)
    (hg : groupMapGet groups gid = some g) (hw : g.windowId = win.id) :
    renderScanA groups win (t :: rest) rendered =
      Block.group g (win.tabs.filter (fun u => u.groupId == gid)) ::
        renderScanA groups win rest (gid :: rendered) := by
  rw [renderScanA, h]
  simp [hm, hg, hw]

theorem renderScanA_cons_fallback_missing (groups : List TabGroup) (win : Window)
    (t : Tab) (rest : List Tab) (rendered : List Int) (gid : Int)
    (h : effGroupId t = some gid) (hm : ¬ gid ∈ rendered)
    (hg : groupMapGet groups gid = none) :
    renderScanA groups win (t :: rest) rendered =
      Block.single t :: renderScanA groups win rest (gid :: rendered) := by
  rw [renderScanA, h]
  simp [hm, hg]

theorem renderScanA_cons_fallback_other (groups : List TabGroup) (win : Window)
    (t : Tab) (rest : List Tab) (rendered : List Int) (gid : Int) (g : TabGroup)
    (h : effGroupId t = some gid) (hm : ¬ gid ∈ rendered)
    (hg : groupMapGet groups gid = some g) (hw : ¬ g.windowId = win.id) :
    renderScanA groups win (t :: rest) rendered =
      Block.single t :: renderScanA groups win rest (gid :: rendered) := by
  rw [renderScanA, h]
  simp [hm, hg, hw]

theorem scanA_filterMap_single (groups : List TabGroup) (win : Window) :
    ∀ (rest : List Tab) (rendered : List Int),
      (∀ t ∈ rest, ∀ gid, effGroupId t = some gid →
        ∃ g, groupMapGet groups gid = some g ∧ g.windowId = win.id) →
      (renderScanA groups win rest rendered).filterMap blockSingleTab
        = rest.filter (fun t => effGroupId t == (none : Option Int)) := by
  intro rest
  induction rest with
  | nil =>
    intro rendered _
    simp [renderScanA_nil]
  | cons t rest ih =>
    intro rendered hval
    have hval' := fun u hu => hval u (List.mem_cons_of_mem t hu)
    cases heff : effGroupId t with
    | none =>
      rw [renderScanA_cons_none groups win t rest rendered heff]
      simp [blockSingleTab, heff, ih rendered hval']
    | some gid =>
      obtain ⟨g, hg, hw⟩ := hval t (List.mem_cons_self t rest) gid heff
      by_cases hm : gid ∈ rendered
      · rw [renderScanA_cons_mem groups win t rest rendered gid heff hm]
        rw [ih rendered hval']
        simp [heff]
      · rw [renderScanA_cons_group groups win t rest rendered gid g heff hm hg hw]
        simp [blockSingleTab, heff, ih (gid :: rendered) hval']

theorem ungroupedTabsOf_cons (b : Block) (bs : List Block) :
    ungroupedTabsOf (b :: bs) =
      (match b with
        | Block.single t => [t]
        | Block.ungroupedList ts => ts
        | Block.group _ _ => []) ++ ungroupedTabsOf bs := by
  simp [ungroupedTabsOf]

theorem scanA_ungroupedTabs (groups : List TabGroup) (win : Window) :
    ∀ (rest : List Tab) (rendered : List Int),
      (∀ t ∈ rest, ∀ gid, effGroupId t = some gid →
        ∃ g, groupMapGet groups gid = some g ∧ g.windowId = win.id) →
      ungroupedTabsOf (renderScanA groups win rest rendered)
        = rest.filter (fun t => effGroupId t == (none : Option Int)) := by
  intro rest
  induction rest with
  | nil =>
    intro rendered _
    simp [renderScanA_nil, ungroupedTabsOf]
  | cons t rest ih =>
    intro rendered hval
    have hval' := fun u hu => hval u (List.mem_cons_of_mem t hu)
    cases heff : effGroupId t with
    | none =>
      rw [renderScanA_cons_none groups win t rest rendered heff, ungroupedTabsOf_cons]
      simp [heff, ih rendered hval']
    | some gid =>
      obtain ⟨g, hg, hw⟩ := hval t (List.mem_cons_self t rest) gid heff
      by_cases hm : gid ∈ rendered
      · rw [renderScanA_cons_mem groups win t rest rendered gid heff hm]
        rw [ih rendered hval']
        simp [heff]
      · rw [renderScanA_cons_group groups win t rest rendered gid g heff hm hg hw,
          ungroupedTabsOf_cons]
        simp [heff, ih (gid :: rendered) hval']

theorem scanA_group_mem (groups : List TabGroup) (win : Window) :
    ∀ (rest : List Tab) (rendered : List Int) (g : TabGroup) (ts : List Tab),
      Block.group g ts ∈ renderScanA groups win rest rendered →
      groupMapGet groups g.id = some g ∧ g.windowId = win.id ∧
        ts = win.tabs.filter (fun u => u.groupId == g.id) := by
  intro rest
  induction rest with
  | nil =>
    intro rendered g ts h
    rw [renderScanA_nil] at h
    cases h
  | cons t rest ih =>
    intro rendered g ts h
    cases heff : effGroupId t with
    | none =>
      rw [renderScanA_cons_none groups win t rest rendered heff] at h
      rcases List.mem_cons.mp h with h1 | h1
      · cases h1
      · exact ih rendered g ts h1
    | some gid =>
      by_cases hm : gid ∈ rendered
      · rw [renderScanA_cons_mem groups win t rest rendered gid heff hm] at h
        exact ih rendered g ts h
      · cases hg : groupMapGet groups gid with
        | none =>
          rw [renderScanA_cons_fallback_missing groups win t rest rendered gid heff hm hg] at h
          rcases List.mem_cons.mp h with h1 | h1
          · cases h1
          · exact ih (gid :: rendered) g ts h1
        | some g0 =>
          by_cases hw : g0.windowId = win.id
          · rw [renderScanA_cons_group groups win t rest rendered gid g0 heff hm hg hw] at h
            rcases List.mem_cons.mp h with h1 | h1
            · rw [Block.group.injEq] at h1
              obtain ⟨rfl, rfl⟩ := h1
              have hid := groupMapGet_id groups gid g hg
              rw [hid]
              exact ⟨hg, hw, rfl⟩
            · exact ih (gid :: rendered) g ts h1
          · rw [renderScanA_cons_fallback_other groups win t rest rendered gid g0 heff hm hg hw] at h
            rcases List.mem_cons.mp h with h1 | h1
            · cases h1
            · exact ih (gid :: rendered) g ts h1

theorem scanA_countP_group (groups : List TabGroup) (win : Window) :
    ∀ (rest : List Tab) (rendered : List Int) (gid : Int),
      (∀ t ∈ rest, ∀ g1, effGroupId t = some g1 →
        ∃ g, groupMapGet groups g1 = some g ∧ g.windowId = win.id) →
      (renderScanA groups win rest rendered).countP (isGroupBlockFor gid)
        = if (∃ t, t ∈ rest ∧ effGroupId t = some gid) ∧ ¬ gid ∈ rendered then 1
          else 0 := by
  intro rest
  induction rest with
  | nil =>
    intro rendered gid _
    simp [renderScanA_nil]
  | cons t rest ih =>
    intro rendered gid hval
    have hval' := fun u hu => hval u (List.mem_cons_of_mem t hu)
    cases heff : effGroupId t with
    | none =>
      rw [renderScanA_cons_none groups win t rest rendered heff, List.countP_cons]
      have hhead : isGroupBlockFor gid (Block.single t) = false := rfl
      rw [hhead, ih rendered gid hval']
      have hcond : ((∃ u, u ∈ t :: rest ∧ effGroupId u = some gid) ∧ ¬ gid ∈ rendered) ↔
          ((∃ u, u ∈ rest ∧ effGroupId u = some gid) ∧ ¬ gid ∈ rendered) := by
        constructor
        · rintro ⟨⟨u, hu, hue⟩, hr⟩
          rcases List.mem_cons.mp hu with rfl | hu1
          · rw [heff] at hue
            cases hue
          · exact ⟨⟨u, hu1, hue⟩, hr⟩
        · rintro ⟨⟨u, hu, hue⟩, hr⟩
          exact ⟨⟨u, List.mem_cons_of_mem t hu, hue⟩, hr⟩
      simp only [hcond]
      simp
    | some gid1 =>
      obtain ⟨g, hg, hw⟩ := hval t (List.mem_cons_self t rest) gid1 heff
      by_cases hm : gid1 ∈ rendered
      · rw [renderScanA_cons_mem groups win t rest rendered gid1 heff hm]
        rw [ih rendered gid hval']
        by_cases hgg : gid = gid1
        · subst hgg
          have hcond : ¬ ((∃ u, u ∈ t :: rest ∧ effGroupId u = some gid) ∧ ¬ gid ∈ rendered) := by
            rintro ⟨_, hr⟩
            exact hr hm
          have hcond1 : ¬ ((∃ u, u ∈ rest ∧ effGroupId u = some gid) ∧ ¬ gid ∈ rendered) := by
            rintro ⟨_, hr⟩
            exact hr hm
          rw [if_neg hcond1, if_neg hcond]
        · have hcond : ((∃ u, u ∈ t :: rest ∧ effGroupId u = some gid) ∧ ¬ gid ∈ rendered) ↔
              ((∃ u, u ∈ rest ∧ effGroupId u = some gid) ∧ ¬ gid ∈ rendered) := by
            constructor
            · rintro ⟨⟨u, hu, hue⟩, hr⟩
              rcases List.mem_cons.mp hu with rfl | hu1
              · rw [heff] at hue
                cases hue
                exact absurd rfl hgg
              · exact ⟨⟨u, hu1, hue⟩, hr⟩
            · rintro ⟨⟨u, hu, hue⟩, hr⟩
              exact ⟨⟨u, List.mem_cons_of_mem t hu, hue⟩, hr⟩
          simp only [hcond]
      · rw [renderScanA_cons_group groups win t rest rendered gid1 g heff hm hg hw,
          List.countP_cons]
        have hid := groupMapGet_id groups gid1 g hg
        rw [ih (gid1 :: rendered) gid hval']
        by_cases hgg : gid = gid1
        · subst hgg
          have hhead : isGroupBlockFor gid
              (Block.group g (win.tabs.filter (fun u => u.groupId == gid))) = true := by
            simp [isGroupBlockFor, hid]
          have hcond1 : ¬ ((∃ u, u ∈ rest ∧ effGroupId u = some gid) ∧
              ¬ gid ∈ gid :: rendered) := by
            rintro ⟨_, hr⟩
            exact hr (List.mem_cons_self gid rendered)
          have hcond : (∃ u, u ∈ t :: rest ∧ effGroupId u = some gid) ∧ ¬ gid ∈ rendered :=
            ⟨⟨t, List.mem_cons_self t rest, heff⟩, hm⟩
          rw [if_neg hcond1, if_pos hcond, hhead]
          simp
        · have hhead : isGroupBlockFor gid
              (Block.group g (win.tabs.filter (fun u => u.groupId == gid1))) = false := by
            simp [isGroupBlockFor, hid]
            exact fun hh => absurd hh.symm hgg
          have hcond : ((∃ u, u ∈ rest ∧ effGroupId u = some gid) ∧
              ¬ gid ∈ gid1 :: rendered) ↔
              ((∃ u, u ∈ t :: rest ∧ effGroupId u = some gid) ∧ ¬ gid ∈ rendered) := by
            constructor
            · rintro ⟨⟨u, hu, hue⟩, hr⟩
              rw [List.mem_cons] at hr
              push_neg at hr
              exact ⟨⟨u, List.mem_cons_of_mem t hu, hue⟩, hr.2⟩
            · rintro ⟨⟨u, hu, hue⟩, hr⟩
              rcases List.mem_cons.mp hu with rfl | hu1
              · rw [heff] at hue
                cases hue
                exact absurd rfl hgg
              · refine ⟨⟨u, hu1, hue⟩, ?_⟩
                rw [List.mem_cons]
                push_neg
                exact ⟨hgg, hr⟩
          rw [hhead]
          simp only [hcond]
          simp

theorem nodup_pre_id (win : Window) (pre rest : List Tab) (t : Tab)
    (htabs : win.tabs = pre ++ t :: rest) (hnodup : (win.tabs.map Tab.id).Nodup) :
    ∀ u ∈ pre, (u.id == t.id) = false := by
  intro u hu
  rw [htabs, List.map_append, List.nodup_append] at hnodup
  have hdis := hnodup.2.2
  have hut : ¬ u.id = t.id := by
    intro hEq
    exact hdis (hEq ▸ List.mem_map_of_mem Tab.id hu) (by simp)
  simpa using hut

theorem scanA_anchors (groups : List TabGroup) (win : Window) :
    ∀ (rest pre : List Tab) (rendered : List Int),
      win.tabs = pre ++ rest →
      (∀ gid, gid ∈ rendered ↔ ∃ u, u ∈ pre ∧ effGroupId u = some gid) →
      (∀ t ∈ win.tabs, ∀ gid, effGroupId t = some gid →
        ∃ g, groupMapGet groups gid = some g ∧ g.windowId = win.id) →
      (win.tabs.map Tab.id).Nodup →
      (∀ b ∈ renderScanA groups win rest rendered,
          pre.length ≤ blockAnchor win.tabs b) ∧
      ((renderScanA groups win rest rendered).map (blockAnchor win.tabs)).Pairwise
        (fun i j => i < j) := by
  intro rest
  induction rest with
  | nil =>
    intro pre rendered _ _ _ _
    simp [renderScanA_nil]
  | cons t rest ih =>
    intro pre rendered htabs hinv hval hnodup
    have htmem : t ∈ win.tabs := by
      rw [htabs]
      exact List.mem_append_right pre (List.mem_cons_self t rest)
    have htabs1 : win.tabs = (pre ++ [t]) ++ rest := by
      rw [htabs]
      simp
    cases heff : effGroupId t with
    | none =>
      have hinv1 : ∀ gid1, gid1 ∈ rendered ↔
          ∃ u, u ∈ pre ++ [t] ∧ effGroupId u = some gid1 := by
        intro gid1
        constructor
        · intro hr
          obtain ⟨u, hu, hue⟩ := (hinv gid1).mp hr
          exact ⟨u, List.mem_append_left _ hu, hue⟩
        · rintro ⟨u, hu, hue⟩
          rcases List.mem_append.mp hu with hu1 | hu1
          · exact (hinv gid1).mpr ⟨u, hu1, hue⟩
          · rw [List.mem_singleton] at hu1
            subst hu1
            rw [heff] at hue
            cases hue
      have hrec := ih (pre ++ [t]) rendered htabs1 hinv1 hval hnodup
      have hanchor : blockAnchor win.tabs (Block.single t) = pre.length := by
        show win.tabs.findIdx (fun u => u.id == t.id) = pre.length
        rw [htabs]
        apply findIdx_append_cons
        · exact nodup_pre_id win pre rest t htabs hnodup
        · simp
      rw [renderScanA_cons_none groups win t rest rendered heff]
      refine ⟨?_, ?_⟩
      · intro b hb
        rcases List.mem_cons.mp hb with rfl | hb1
        · simp [hanchor]
        · have h1 := hrec.1 b hb1
          rw [List.length_append] at h1
          simp at h1
          omega
      · rw [List.map_cons]
        refine List.Pairwise.cons ?_ hrec.2
        intro j hj
        rw [List.mem_map] at hj
        obtain ⟨b, hb, rfl⟩ := hj
        have h1 := hrec.1 b hb
        rw [List.length_append] at h1
        simp at h1
        rw [hanchor]
        omega
    | some gid =>
      obtain ⟨g, hg, hw⟩ := hval t htmem gid heff
      by_cases hm : gid ∈ rendered
      · have hinv1 : ∀ gid1, gid1 ∈ rendered ↔
            ∃ u, u ∈ pre ++ [t] ∧ effGroupId u = some gid1 := by
          intro gid1
          constructor
          · intro hr
            obtain ⟨u, hu, hue⟩ := (hinv gid1).mp hr
            exact ⟨u, List.mem_append_left _ hu, hue⟩
          · rintro ⟨u, hu, hue⟩
            rcases List.mem_append.mp hu with hu1 | hu1
            · exact (hinv gid1).mpr ⟨u, hu1, hue⟩
            · rw [List.mem_singleton] at hu1
              subst hu1
              rw [heff] at hue
              cases hue
              exact hm
        have hrec := ih (pre ++ [t]) rendered htabs1 hinv1 hval hnodup
        rw [renderScanA_cons_mem groups win t rest rendered gid heff hm]
        refine ⟨?_, hrec.2⟩
        intro b hb
        have h1 := hrec.1 b hb
        rw [List.length_append] at h1
        simp at h1
        omega
      · have hid := groupMapGet_id groups gid g hg
        have hinv1 : ∀ gid1, gid1 ∈ gid :: rendered ↔
            ∃ u, u ∈ pre ++ [t] ∧ effGroupId u = some gid1 := by
          intro gid1
          constructor
          · intro hr
            rcases List.mem_cons.mp hr with rfl | hr1
            · exact ⟨t, List.mem_append_right _ (List.mem_singleton_self t), heff⟩
            · obtain ⟨u, hu, hue⟩ := (hinv gid1).mp hr1
              exact ⟨u, List.mem_append_left _ hu, hue⟩
          · rintro ⟨u, hu, hue⟩
            rcases List.mem_append.mp hu with hu1 | hu1
            · exact List.mem_cons_of_mem gid ((hinv gid1).mpr ⟨u, hu1, hue⟩)
            · rw [List.mem_singleton] at hu1
              subst hu1
              rw [heff] at hue
              cases hue
              exact List.mem_cons_self gid rendered
        have hrec := ih (pre ++ [t]) (gid :: rendered) htabs1 hinv1 hval hnodup
        have hanchor : blockAnchor win.tabs
            (Block.group g (win.tabs.filter (fun u => u.groupId == gid))) = pre.length := by
          show win.tabs.findIdx (fun u => effGroupId u == some g.id) = pre.length
          rw [hid, htabs]
          apply findIdx_append_cons
          · intro u hu
            have hne : ¬ effGroupId u = some gid := by
              intro hEq
              exact hm ((hinv gid).mpr ⟨u, hu, hEq⟩)
            simpa using hne
          · simp [heff]
        rw [renderScanA_cons_group groups win t rest rendered gid g heff hm hg hw]
        refine ⟨?_, ?_⟩
        · intro b hb
          rcases List.mem_cons.mp hb with rfl | hb1
          · simp [hanchor]
          · have h1 := hrec.1 b hb1
            rw [List.length_append] at h1
            simp at h1
            omega
        · rw [List.map_cons]
          refine List.Pairwise.cons ?_ hrec.2
          intro j hj
          rw [List.mem_map] at hj
          obtain ⟨b, hb, rfl⟩ := hj
          have h1 := hrec.1 b hb
          rw [List.length_append] at h1
          simp at h1
          rw [hanchor]
          omega

theorem dedupGroupsById_covers :
    ∀ (l : List TabGroup) (seen : List Int) (a : TabGroup), a ∈ l →
      a.id ∈ seen ∨ ∃ b, b ∈ dedupGroupsById l seen ∧ b.id = a.id := by
  intro l
  induction l with
  | nil =>
    intro seen a ha
    cases ha
  | cons g rest ih =>
    intro seen a ha
    by_cases hs : g.id ∈ seen
    · rw [dedupGroupsById, if_pos hs]
      rcases List.mem_cons.mp ha with rfl | ha1
      · exact Or.inl hs
      · exact ih seen a ha1
    · rw [dedupGroupsById, if_neg hs]
      rcases List.mem_cons.mp ha with rfl | ha1
      · exact Or.inr ⟨a, List.mem_cons_self a _, rfl⟩
      · rcases ih (g.id :: seen) a ha1 with h | ⟨b, hb, hid⟩
        · rcases List.mem_cons.mp h with heq | h1
          · exact Or.inr ⟨g, List.mem_cons_self g _, heq.symm⟩
          · exact Or.inl h1
        · exact Or.inr ⟨b, List.mem_cons_of_mem g hb, hid⟩

theorem dedupGroupsById_sub :
    ∀ (l : List TabGroup) (seen : List Int) (b : TabGroup),
      b ∈ dedupGroupsById l seen → b ∈ l := by
  intro l
  induction l with
  | nil =>
    intro seen b hb
    rw [dedupGroupsById] at hb
    cases hb
  | cons g rest ih =>
    intro seen b hb
    by_cases hs : g.id ∈ seen
    · rw [dedupGroupsById, if_pos hs] at hb
      exact List.mem_cons_of_mem g (ih seen b hb)
    · rw [dedupGroupsById, if_neg hs] at hb
      rcases List.mem_cons.mp hb with rfl | hb1
      · exact List.mem_cons_self b _
      · exact List.mem_cons_of_mem g (ih (g.id :: seen) b hb1)

theorem renderBlocksB_eq (groups : List TabGroup) (win : Window) :
    renderBlocksB groups win =
      (dedupGroupsById (groups.filter (fun g => g.windowId == win.id)) []).filterMap
          (groupBucketBlock groups win) ++
        (if (win.tabs.filter (fun t => effGroupId t == (none : Option Int))).isEmpty
         then []
         else [Block.ungroupedList
           (win.tabs.filter (fun t => effGroupId t == (none : Option Int)))]) := rfl

theorem groupBucketBlock_group (groups : List TabGroup) (win : Window) (g1 : TabGroup)
    (b : Block) (h : groupBucketBlock groups win g1 = some b) :
    ∃ gi ts, b = Block.group gi ts := by
  unfold groupBucketBlock at h
  by_cases he : (win.tabs.filter (fun t => effGroupId t == some g1.id)).isEmpty
  · rw [if_pos he] at h
    cases h
  · rw [if_neg he] at h
    cases hg : groupMapGet groups g1.id with
    | none =>
      rw [hg] at h
      cases h
    | some gi =>
      rw [hg] at h
      simp only at h
      by_cases hw : gi.windowId = win.id
      · rw [if_pos hw] at h
        exact ⟨gi, _, (Option.some.inj h).symm⟩
      · rw [if_neg hw] at h
        cases h

theorem ungroupedTabsOf_append (xs ys : List Block) :
    ungroupedTabsOf (xs ++ ys) = ungroupedTabsOf xs ++ ungroupedTabsOf ys := by
  simp [ungroupedTabsOf]

theorem ungroupedTabsOf_bucket_blocks (groups : List TabGroup) (win : Window) :
    ∀ (l : List TabGroup),
      ungroupedTabsOf (l.filterMap (groupBucketBlock groups win)) = [] := by
  intro l
  induction l with
  | nil => simp [ungroupedTabsOf]
  | cons g rest ih =>
    rw [List.filterMap_cons]
    cases hb : groupBucketBlock groups win g with
    | none => exact ih
    | some b =>
      obtain ⟨gi, ts, rfl⟩ := groupBucketBlock_group groups win g b hb
      rw [ungroupedTabsOf_cons]
      simpa using ih

theorem ungroupedTabsOf_renderBlocksB (groups : List TabGroup) (win : Window) :
    ungroupedTabsOf (renderBlocksB groups win)
      = win.tabs.filter (fun t => effGroupId t == (none : Option Int)) := by
  rw [renderBlocksB_eq, ungroupedTabsOf_append, ungroupedTabsOf_bucket_blocks]
  by_cases h : (win.tabs.filter (fun t => effGroupId t == (none : Option Int))).isEmpty
  · rw [if_pos h]
    rw [List.isEmpty_iff] at h
    simp [ungroupedTabsOf, h]
  · rw [if_neg h]
    simp [ungroupedTabsOf]

theorem mem_renderBlocksB_group (groups : List TabGroup) (win : Window)
    (g : TabGroup) (ts : List Tab) :
    Block.group g ts ∈ renderBlocksB groups win ↔
      ∃ g1, g1 ∈ dedupGroupsById (groups.filter (fun x => x.windowId == win.id)) [] ∧
        groupBucketBlock groups win g1 = some (Block.group g ts) := by
  rw [renderBlocksB_eq, List.mem_append]
  constructor
  · rintro (h | h)
    · rw [List.mem_filterMap] at h
      obtain ⟨g1, hg1, hb⟩ := h
      exact ⟨g1, hg1, hb⟩
    · exfalso
      by_cases he : (win.tabs.filter (fun t => effGroupId t == (none : Option Int))).isEmpty
      · rw [if_pos he] at h
        cases h
      · rw [if_neg he] at h
        rw [List.mem_singleton] at h
        cases h
  · rintro ⟨g1, hg1, hb⟩
    left
    rw [List.mem_filterMap]
    exact ⟨g1, hg1, hb⟩

theorem mem_renderBlocksB_group_iff (groups : List TabGroup) (win : Window)
    (g : TabGroup) (ts : List Tab) :
    Block.group g ts ∈ renderBlocksB groups win ↔ groupBlockChar groups win g ts := by
  rw [mem_renderBlocksB_group]
  constructor
  · rintro ⟨g1, _, hb⟩
    unfold groupBucketBlock at hb
    by_cases he : (win.tabs.filter (fun t => effGroupId t == some g1.id)).isEmpty
    · rw [if_pos he] at hb
      cases hb
    · rw [if_neg he] at hb
      cases hg : groupMapGet groups g1.id with
      | none =>
        rw [hg] at hb
        cases hb
      | some gi =>
        rw [hg] at hb
        simp only at hb
        by_cases hw : gi.windowId = win.id
        · rw [if_pos hw] at hb
          have hb1 := Option.some.inj hb
          rw [Block.group.injEq] at hb1
          obtain ⟨rfl, rfl⟩ := hb1
          have hid : gi.id = g1.id := groupMapGet_id groups g1.id gi hg
          have hne : win.tabs.filter (fun t => effGroupId t == some g1.id) ≠ [] := by
            intro hnil
            rw [hnil] at he
            exact he rfl
          obtain ⟨t0, ht0⟩ := List.exists_mem_of_ne_nil _ hne
          rw [List.mem_filter] at ht0
          have ht0eff : effGroupId t0 = some g1.id := by simpa using ht0.2
          have hpos : -1 < g1.id := ((effGroupId_eq_some_iff t0 g1.id).mp ht0eff).2
          refine ⟨by rw [hid]; exact hg, hw, ?_, ⟨t0, ht0.1, by rw [hid]; exact ht0eff⟩⟩
          rw [hid, filter_effGroupId_eq win.tabs g1.id hpos]
        · rw [if_neg hw] at hb
          cases hb
  · rintro ⟨hg, hw, hts, t0, ht0, ht0eff⟩
    have hpos : -1 < g.id := ((effGroupId_eq_some_iff t0 g.id).mp ht0eff).2
    have hgmem : g ∈ groups.filter (fun x => x.windowId == win.id) := by
      rw [List.mem_filter]
      exact ⟨groupMapGet_mem groups g.id g hg, by simp [hw]⟩
    rcases dedupGroupsById_covers (groups.filter (fun x => x.windowId == win.id)) [] g
        hgmem with h | ⟨g1, hg1, hid⟩
    · cases h
    · refine ⟨g1, hg1, ?_⟩
      unfold groupBucketBlock
      rw [hid]
      have hfil : win.tabs.filter (fun t => effGroupId t == some g.id)
          = win.tabs.filter (fun u => u.groupId == g.id) :=
        filter_effGroupId_eq win.tabs g.id hpos
      have hne : ¬ (win.tabs.filter (fun t => effGroupId t == some g.id)).isEmpty = true := by
        rw [List.isEmpty_iff]
        intro hnil
        have ht0mem : t0 ∈ win.tabs.filter (fun t => effGroupId t == some g.id) := by
          rw [List.mem_filter]
          exact ⟨ht0, by simp [ht0eff]⟩
        rw [hnil] at ht0mem
        cases ht0mem
      rw [if_neg hne, hg]
      simp only
      rw [if_pos hw, hfil, ← hts]

theorem mem_renderBlocksA_group_iff (groups : List TabGroup) (win : Window)
    (hval : validRefs groups win = true) (g : TabGroup) (ts : List Tab) :
    Block.group g ts ∈ renderBlocksA groups win ↔ groupBlockChar groups win g ts := by
  have hval1 := validRefs_elim groups win hval
  constructor
  · intro h
    obtain ⟨hg, hw, hts⟩ := scanA_group_mem groups win win.tabs [] g ts h
    have hcount := scanA_countP_group groups win win.tabs [] g.id hval1
    have hpos : 0 < (renderScanA groups win win.tabs []).countP (isGroupBlockFor g.id) := by
      rw [List.countP_pos_iff]
      exact ⟨Block.group g ts, h, by simp [isGroupBlockFor]⟩
    rw [hcount] at hpos
    by_cases hc : (∃ t, t ∈ win.tabs ∧ effGroupId t = some g.id) ∧
        ¬ g.id ∈ ([] : List Int)
    · exact ⟨hg, hw, hts, hc.1⟩
    · rw [if_neg hc] at hpos
      exact absurd hpos (lt_irrefl 0)
  · rintro ⟨hg, hw, hts, hex⟩
    have hcount := scanA_countP_group groups win win.tabs [] g.id hval1
    have hc : (∃ t, t ∈ win.tabs ∧ effGroupId t = some g.id) ∧
        ¬ g.id ∈ ([] : List Int) := ⟨hex, by simp⟩
    rw [if_pos hc] at hcount
    have hpos : 0 < (renderScanA groups win win.tabs []).countP (isGroupBlockFor g.id) := by
      rw [hcount]
      exact Nat.zero_lt_one
    rw [List.countP_pos_iff] at hpos
    obtain ⟨b, hb, hpb⟩ := hpos
    cases b with
    | single t => simp [isGroupBlockFor] at hpb
    | ungroupedList ts1 => simp [isGroupBlockFor] at hpb
    | group g1 ts1 =>
      have hid : g1.id = g.id := by simpa [isGroupBlockFor] using hpb
      obtain ⟨hg1, hw1, hts1⟩ := scanA_group_mem groups win win.tabs [] g1 ts1 hb
      rw [hid] at hg1
      have hgg : g1 = g := Option.some.inj (hg1.symm.trans hg)
      have htseq : ts1 = ts := by rw [hts1, hts, hgg]
      rw [← hgg, ← htseq]
      exact hb

/-- C2: under well-formed group references and distinct tab ids, the
current renderer emits each ungrouped tab as a standalone row in tab
order, exactly one group block per referenced group — carrying all of
that group's tabs, never duplicated — and the blocks appear in strictly
increasing first-encounter positions over the window's tabs. -/
theorem C2_first_encounter_render (groups : List TabGroup) (win : Window)
    (hval : validRefs groups win = true)
    (hnodup : (win.tabs.map Tab.id).Nodup) :
    (renderBlocksA groups win).filterMap blockSingleTab
        = win.tabs.filter (fun t => effGroupId t == (none : Option Int)) ∧
    (∀ gid, (renderBlocksA groups win).countP (isGroupBlockFor gid)
        = if ∃ t, t ∈ win.tabs ∧ effGroupId t = some gid then 1 else 0) ∧
    (∀ g ts, Block.group g ts ∈ renderBlocksA groups win →
        groupMapGet groups g.id = some g ∧ g.windowId = win.id ∧
        ts = win.tabs.filter (fun u => u.groupId == g.id)) ∧
    ((renderBlocksA groups win).map (blockAnchor win.tabs)).Pairwise
      (fun i j => i < j) := by
  have hval1 := validRefs_elim groups win hval
  refine ⟨?_, ?_, ?_, ?_⟩
  · exact scanA_filterMap_single groups win win.tabs [] hval1
  · intro gid
    have h := scanA_countP_group groups win win.tabs [] gid hval1
    simpa using h
  · intro g ts h
    exact scanA_group_mem groups win win.tabs [] g ts h
  · exact (scanA_anchors groups win win.tabs [] [] rfl (by simp) hval1 hnodup).2

/-- Witness for C2 at the spec's scenario: three tabs, tab 2 in the
"Work" group — the render is tab 1 (ungrouped), group block with tab 2,
tab 3 (ungrouped), in that order. -/
theorem C2_first_encounter_render_witness :
    validRefs [exGroup] exWin = true ∧
    renderBlocksA [exGroup] exWin =
      [Block.single (exTab 1 (-1)), Block.group exGroup [exTab 2 7],
       Block.single (exTab 3 (-1))] ∧
    (renderBlocksA [exGroup] exWin).filterMap blockSingleTab =
      [exTab 1 (-1), exTab 3 (-1)] ∧
    ((renderBlocksA [exGroup] exWin).map (blockAnchor exWin.tabs)).Pairwise
      (fun i j => i < j) := by
  obtain ⟨h1, _, _, h4⟩ :=
    C2_first_encounter_render [exGroup] exWin (by decide) (by decide)
  refine ⟨by decide, by decide, ?_, h4⟩
  rw [h1]
  decide

/-- C10, counterexample: on the spec's scenario the two renderers
produce the same content in different block sequences — the current
renderer interleaves by first encounter, the older one puts the group
block first and one combined ungrouped list last. -/
theorem C10_renderers_differ :
    renderBlocksA [exGroup] exWin =
      [Block.single (exTab 1 (-1)), Block.group exGroup [exTab 2 7],
       Block.single (exTab 3 (-1))] ∧
    renderBlocksB [exGroup] exWin =
      [Block.group exGroup [exTab 2 7],
       Block.ungroupedList [exTab 1 (-1), exTab 3 (-1)]] ∧
    ¬ renderBlocksA [exGroup] exWin = renderBlocksB [exGroup] exWin := by
  decide

/-- C10, amended: under well-formed group references the two renderers
show the same ungrouped tabs in the same relative order and exactly the
same group blocks (same group data, same member tab sequences), though
arranged differently. -/
theorem C10_renderers_same_content (groups : List TabGroup) (win : Window)
    (hval : validRefs groups win = true) :
    ungroupedTabsOf (renderBlocksA groups win)
        = ungroupedTabsOf (renderBlocksB groups win) ∧
    ∀ g ts, (Block.group g ts ∈ renderBlocksA groups win ↔
      Block.group g ts ∈ renderBlocksB groups win) := by
  have hval1 := validRefs_elim groups win hval
  constructor
  · rw [ungroupedTabsOf_renderBlocksB]
    exact scanA_ungroupedTabs groups win win.tabs [] hval1
  · intro g ts
    rw [mem_renderBlocksA_group_iff groups win hval g ts,
      mem_renderBlocksB_group_iff groups win g ts]

/-- Witness for C10's amended statement at the spec's scenario. -/
theorem C10_renderers_same_content_witness :
    ungroupedTabsOf (renderBlocksA [exGroup] exWin)
        = ungroupedTabsOf (renderBlocksB [exGroup] exWin) ∧
    (Block.group exGroup [exTab 2 7] ∈ renderBlocksA [exGroup] exWin ↔
      Block.group exGroup [exTab 2 7] ∈ renderBlocksB [exGroup] exWin) := by
  obtain ⟨h1, h2⟩ := C10_renderers_same_content [exGroup] exWin (by decide)
  exact ⟨h1, h2 exGroup [exTab 2 7]⟩

end Windoze
